import Mathlib

/-!
Verification of the annotated-transformer calculator repository (`model.py`).

Each definition below is a shallow embedding of the corresponding Python
function.  Python strings are modelled as `List Char`, `ord` as `Char.toNat`,
machine integers as `ℤ`/`ℕ`, floats as `ℝ` (exactly; no rounding is modelled),
tensor contents as functions or lists, and an `assert` failure as `none` of an
`Option` result.
-/

/-! ### Tokenizer (model.py lines 32-72) -/

/-- `operators = ['~', '^', '$', '+', '-', '=']` (model.py line 32). -/
def operators : List Char := ['~', '^', '$', '+', '-', '=']

/-- `start_symbol = 1` (model.py line 33). -/
def start_symbol : ℤ := 1

/-- `pad_symbol = 0` (model.py line 34). -/
def pad_symbol : ℤ := 0

/-- `voca_size = len(operators) + ord('9') - ord('0') + 1 + ord('J') - ord('A') + 1`
(model.py line 35). -/
def voca_size : ℕ :=
  operators.length + ('9'.toNat - '0'.toNat + 1) + ('J'.toNat - 'A'.toNat + 1)

/-- `to_token` (model.py lines 39-48).  The `assert res < voca_size` is modelled
by returning `none` when the computed id is not below `voca_size`; the id is an
`ℤ` because Python's `ord(ch) - ord('0')` may be negative for characters below
`'0'`. -/
def to_token (ch : Char) : Option ℤ :=
  if ch ∈ operators then
    some (operators.indexOf ch)
  else
    let res : ℤ :=
      if ch.toNat > '9'.toNat then
        (ch.toNat : ℤ) - 'A'.toNat + 10 + operators.length
      else
        (ch.toNat : ℤ) - '0'.toNat + operators.length
    if res < (voca_size : ℤ) then some res else none

/-- `from_token` (model.py lines 51-57).  The call `to_token('9')` made by the
source is evaluated through `to_token` itself; list indexing uses `getD` (the
claims only exercise in-range non-negative ids). -/
def from_token (token : ℤ) : Char :=
  if token < (operators.length : ℤ) then
    operators.getD token.toNat ' '
  else if token > ((to_token '9').getD 0) then
    Char.ofNat (token - (to_token '9').getD 0 + 'A'.toNat - 1).toNat
  else
    Char.ofNat ('0'.toNat + token - operators.length).toNat

/-- The fixed alphabet described by the spec: the six operator characters,
the digits `'0'`-`'9'` and the uppercase letters `'A'`-`'J'`. -/
def alphabetChars : List Char :=
  operators ++ ['0', '1', '2', '3', '4', '5', '6', '7', '8', '9'] ++
    ['A', 'B', 'C', 'D', 'E', 'F', 'G', 'H', 'I', 'J']

/-! ### Elementary-addition string generator (model.py lines 750-770) -/

/-- `padding_str` (model.py lines 750-757). -/
def padding_str (text : List Char) (length : ℕ) (position : String) : List Char :=
  if position = "left" then
    if length > text.length then
      List.replicate (length - text.length) '0' ++ text
    else text
  else if position = "right" then
    if length > text.length then
      text ++ List.replicate (length - text.length) '0'
    else text
  else text

/-- One iteration of the `for ch1, ch2 in zip(text1, text2)` body of
`sum_two_str` (model.py lines 766-769):
`ch = (ord(ch1) - ord('0')) + (ord(ch2) - ord('0')) + ord('0')`, mapped past
`'9'` by `ch - ord('9') + ord('A')`. -/
def sumChar (ch1 ch2 : Char) : Char :=
  let ch := (ch1.toNat - '0'.toNat) + (ch2.toNat - '0'.toNat) + '0'.toNat
  if ch > '9'.toNat then Char.ofNat (ch - '9'.toNat + 'A'.toNat) else Char.ofNat ch

/-- `sum_two_str` (model.py lines 760-770): pad both operands on the left to
the common length, then concatenate the position-wise `sumChar` results. -/
def sum_two_str (str1 str2 : List Char) : List Char × List Char × List Char :=
  let length := max str1.length str2.length
  let text1 := padding_str str1 length "left"
  let text2 := padding_str str2 length "left"
  let res := (text1.zip text2).map (fun p => sumChar p.1 p.2)
  (text1, text2, res)

/-! ### Causal mask (model.py lines 213-219) -/

/-- Entry `(i, j)` of `torch.triu(torch.ones(attn_shape), diagonal=1)`
(model.py line 216): `1` on and above the first superdiagonal, `0` below. -/
def triuOnesEntry (diagonal : ℤ) (i j : ℕ) : ℕ :=
  if diagonal ≤ (j : ℤ) - (i : ℤ) then 1 else 0

/-- `subsequent_mask(size)` (model.py lines 213-219) as the `[1, size, size]`
boolean tensor `triu(ones, diagonal=1) == 0`. -/
def subsequent_mask (size : ℕ) : List (List (List Bool)) :=
  [(List.range size).map (fun i =>
    (List.range size).map (fun j => triuOnesEntry 1 i j == 0))]

/-- Entry accessor for the `[1, n, n]` mask produced by `subsequent_mask`. -/
def maskEntry (size i j : ℕ) : Bool :=
  (((subsequent_mask size).getD 0 []).getD i []).getD j false

/-- Value of a digit character: `ord(ch) - ord('0')` (truncated at 0 in ℕ;
for actual digit characters this is the digit's value). -/
def digitVal (c : Char) : ℕ := c.toNat - '0'.toNat

/-! ### Helper lemmas -/

lemma padding_str_left_eq (text : List Char) (length : ℕ)
    (h : text.length ≤ length) :
    padding_str text length "left" =
      List.replicate (length - text.length) '0' ++ text := by
  unfold padding_str
  rw [if_pos rfl]
  by_cases hlt : length > text.length
  · rw [if_pos hlt]
  · rw [if_neg hlt]
    have heq : length = text.length := by omega
    simp [heq]

lemma sumChar_eq (c1 c2 : Char) :
    sumChar c1 c2 =
      if digitVal c1 + digitVal c2 ≤ 9 then
        Char.ofNat ('0'.toNat + (digitVal c1 + digitVal c2))
      else
        Char.ofNat ('A'.toNat + (digitVal c1 + digitVal c2) - 9) := by
  unfold sumChar digitVal
  have h0 : '0'.toNat = 48 := rfl
  have h9 : '9'.toNat = 57 := rfl
  have hA : 'A'.toNat = 65 := rfl
  rw [h0, h9, hA]
  split
  · rename_i h
    rw [if_neg (by omega)]
    congr 1
    omega
  · rename_i h
    rw [if_pos (by omega)]
    congr 1
    omega

lemma sum_two_str_fst (s1 s2 : List Char) :
    (sum_two_str s1 s2).1 = padding_str s1 (max s1.length s2.length) "left" := rfl

lemma sum_two_str_snd (s1 s2 : List Char) :
    (sum_two_str s1 s2).2.1 = padding_str s2 (max s1.length s2.length) "left" := rfl

lemma sum_two_str_res (s1 s2 : List Char) :
    (sum_two_str s1 s2).2.2 =
      ((padding_str s1 (max s1.length s2.length) "left").zip
        (padding_str s2 (max s1.length s2.length) "left")).map
          (fun p => sumChar p.1 p.2) := rfl

/-- Claim C1 (amended: overflow digit sums map to letters starting at `'B'`,
not `'A'`): for digit strings `s1`, `s2`, `sum_two_str` left-pads the shorter
operand with `'0'` to the common length, and the result has one character per
position, holding `chr(ord('0') + d)` when the position-wise digit sum `d` is
at most 9 and `chr(ord('A') + d - 9)` (so `'B'` for `d = 10`, ..., `'J'` for
`d = 18`) when `d` exceeds 9; no carry is propagated between positions. -/
theorem sum_two_str_spec (s1 s2 : List Char)
    (h1 : ∀ c ∈ s1, '0'.toNat ≤ c.toNat ∧ c.toNat ≤ '9'.toNat)
    (h2 : ∀ c ∈ s2, '0'.toNat ≤ c.toNat ∧ c.toNat ≤ '9'.toNat) :
    (sum_two_str s1 s2).1 =
        List.replicate (max s1.length s2.length - s1.length) '0' ++ s1 ∧
    (sum_two_str s1 s2).2.1 =
        List.replicate (max s1.length s2.length - s2.length) '0' ++ s2 ∧
    (sum_two_str s1 s2).2.2.length = max s1.length s2.length ∧
    ∀ k, k < max s1.length s2.length →
      (sum_two_str s1 s2).2.2.getD k '0' =
        (if digitVal ((sum_two_str s1 s2).1.getD k '0')
            + digitVal ((sum_two_str s1 s2).2.1.getD k '0') ≤ 9 then
          Char.ofNat ('0'.toNat + (digitVal ((sum_two_str s1 s2).1.getD k '0')
            + digitVal ((sum_two_str s1 s2).2.1.getD k '0')))
        else
          Char.ofNat ('A'.toNat + (digitVal ((sum_two_str s1 s2).1.getD k '0')
            + digitVal ((sum_two_str s1 s2).2.1.getD k '0')) - 9)) := by
  have hl1 : s1.length ≤ max s1.length s2.length := le_max_left _ _
  have hl2 : s2.length ≤ max s1.length s2.length := le_max_right _ _
  have ht1 : (sum_two_str s1 s2).1 =
      List.replicate (max s1.length s2.length - s1.length) '0' ++ s1 := by
    rw [sum_two_str_fst]; exact padding_str_left_eq s1 _ hl1
  have ht2 : (sum_two_str s1 s2).2.1 =
      List.replicate (max s1.length s2.length - s2.length) '0' ++ s2 := by
    rw [sum_two_str_snd]; exact padding_str_left_eq s2 _ hl2
  have hlen1 : (sum_two_str s1 s2).1.length = max s1.length s2.length := by
    rw [ht1]; simp
  have hlen2 : (sum_two_str s1 s2).2.1.length = max s1.length s2.length := by
    rw [ht2]; simp
  have hres : (sum_two_str s1 s2).2.2 =
      ((sum_two_str s1 s2).1.zip (sum_two_str s1 s2).2.1).map
        (fun p => sumChar p.1 p.2) := by
    rw [sum_two_str_res, sum_two_str_fst, sum_two_str_snd]
  have hlenr : (sum_two_str s1 s2).2.2.length = max s1.length s2.length := by
    rw [hres]; simp [List.length_zip, hlen1, hlen2]
  refine ⟨ht1, ht2, hlenr, ?_⟩
  intro k hk
  have hk1 : k < (sum_two_str s1 s2).1.length := by rw [hlen1]; exact hk
  have hk2 : k < (sum_two_str s1 s2).2.1.length := by rw [hlen2]; exact hk
  have hkr : k < (sum_two_str s1 s2).2.2.length := by rw [hlenr]; exact hk
  rw [List.getD_eq_getElem _ _ hkr, List.getD_eq_getElem _ _ hk1,
    List.getD_eq_getElem _ _ hk2]
  simp only [hres, List.getElem_map, List.getElem_zip]
  rw [sumChar_eq]

/-- Claim C1 counterexample: the claim asserts `sum_two_str("5","5")` produces
`'A'` for the rightmost digit sum 10, but the code produces `'B'`
(`chr(ord(ch) - ord('9') + ord('A'))` with `ch = ord('0') + 10` is `'B'`). -/
theorem sum_two_str_five_five :
    sum_two_str ['5'] ['5'] = (['5'], ['5'], ['B']) ∧ ('B' : Char) ≠ 'A' := by
  constructor
  · rfl
  · decide

/-- Witness for `sum_two_str_spec` at `s1 = "123"`, `s2 = "877"` (hypotheses
discharged by `decide`; the conclusion instance is obtained by applying the
theorem). -/
theorem sum_two_str_spec_witness :
    (∀ c ∈ ['1', '2', '3'], '0'.toNat ≤ c.toNat ∧ c.toNat ≤ '9'.toNat) ∧
    ((sum_two_str ['1', '2', '3'] ['8', '7', '7']).1 =
        List.replicate (max 3 3 - 3) '0' ++ ['1', '2', '3'] ∧
      (sum_two_str ['1', '2', '3'] ['8', '7', '7']).2.1 =
        List.replicate (max 3 3 - 3) '0' ++ ['8', '7', '7'] ∧
      (sum_two_str ['1', '2', '3'] ['8', '7', '7']).2.2.length = max 3 3 ∧
      ∀ k, k < max 3 3 →
        (sum_two_str ['1', '2', '3'] ['8', '7', '7']).2.2.getD k '0' =
          (if digitVal ((sum_two_str ['1', '2', '3'] ['8', '7', '7']).1.getD k '0')
              + digitVal ((sum_two_str ['1', '2', '3'] ['8', '7', '7']).2.1.getD k '0') ≤ 9 then
            Char.ofNat ('0'.toNat +
              (digitVal ((sum_two_str ['1', '2', '3'] ['8', '7', '7']).1.getD k '0')
                + digitVal ((sum_two_str ['1', '2', '3'] ['8', '7', '7']).2.1.getD k '0')))
          else
            Char.ofNat ('A'.toNat +
              (digitVal ((sum_two_str ['1', '2', '3'] ['8', '7', '7']).1.getD k '0')
                + digitVal ((sum_two_str ['1', '2', '3'] ['8', '7', '7']).2.1.getD k '0')) - 9))) :=
  ⟨by decide, sum_two_str_spec ['1', '2', '3'] ['8', '7', '7'] (by decide) (by decide)⟩

/-- Claim C4: `subsequent_mask(n)` is a boolean tensor of shape `[1, n, n]`
whose entry at `(i, j)` is true if and only if `j ≤ i` (lower-triangular
including the diagonal); in particular every strictly upper-triangular entry
is false. -/
theorem subsequent_mask_spec (n : ℕ) (hn : 1 ≤ n) :
    (subsequent_mask n).length = 1 ∧
    ((subsequent_mask n).getD 0 []).length = n ∧
    (∀ i, i < n → (((subsequent_mask n).getD 0 []).getD i []).length = n) ∧
    (∀ i j, i < n → j < n → (maskEntry n i j = true ↔ j ≤ i)) ∧
    (∀ i j, i < n → j < n → i < j → maskEntry n i j = false) := by
  have hrow : (subsequent_mask n).getD 0 [] =
      (List.range n).map (fun i =>
        (List.range n).map (fun j => triuOnesEntry 1 i j == 0)) := rfl
  have hentry : ∀ i j, i < n → j < n →
      maskEntry n i j = (triuOnesEntry 1 i j == 0) := by
    intro i j hi hj
    unfold maskEntry
    rw [hrow]
    have h1 : i < ((List.range n).map (fun i =>
        (List.range n).map (fun j => triuOnesEntry 1 i j == 0))).length := by
      simpa using hi
    rw [List.getD_eq_getElem _ _ h1, List.getElem_map, List.getElem_range]
    have h2 : j < ((List.range n).map
        (fun j => triuOnesEntry 1 i j == 0)).length := by
      simpa using hj
    rw [List.getD_eq_getElem _ _ h2, List.getElem_map, List.getElem_range]
  have hiff : ∀ i j, i < n → j < n → (maskEntry n i j = true ↔ j ≤ i) := by
    intro i j hi hj
    rw [hentry i j hi hj]
    unfold triuOnesEntry
    by_cases h : (1 : ℤ) ≤ (j : ℤ) - (i : ℤ)
    · rw [if_pos h]
      have hnle : ¬ j ≤ i := by omega
      simp [hnle]
    · rw [if_neg h]
      have hle : j ≤ i := by omega
      simp [hle]
  refine ⟨rfl, by rw [hrow]; simp, ?_, hiff, ?_⟩
  · intro i hi
    have h1 : i < ((List.range n).map (fun i =>
        (List.range n).map (fun j => triuOnesEntry 1 i j == 0))).length := by
      simpa using hi
    rw [hrow, List.getD_eq_getElem _ _ h1]
    simp
  · intro i j hi hj hij
    have hle := hiff i j hi hj
    cases h : maskEntry n i j
    · rfl
    · have := hle.mp h
      omega

/-- Witness for `subsequent_mask_spec` at `n = 3`, entries `(2, 1)` and
`(1, 2)`. -/
theorem subsequent_mask_spec_witness :
    (subsequent_mask 3).length = 1 ∧
    (maskEntry 3 2 1 = true ↔ 1 ≤ 2) ∧
    maskEntry 3 1 2 = false :=
  ⟨(subsequent_mask_spec 3 (by decide)).1,
    (subsequent_mask_spec 3 (by decide)).2.2.2.1 2 1 (by decide) (by decide),
    (subsequent_mask_spec 3 (by decide)).2.2.2.2 1 2 (by decide) (by decide) (by decide)⟩

/-- Claim C2: for every character in the fixed alphabet,
`from_token(to_token(c)) == c`, and for every id `t` in `[0, voca_size)`,
`to_token(from_token(t)) == t`. -/
theorem tokenizer_roundtrip :
    (∀ c ∈ alphabetChars,
      (to_token c).isSome = true ∧ from_token ((to_token c).getD 0) = c) ∧
    (∀ t : ℕ, t < voca_size → to_token (from_token (t : ℤ)) = some (t : ℤ)) := by
  decide

/-- Witness for `tokenizer_roundtrip` at `c = 'A'` and `t = 7`. -/
theorem tokenizer_roundtrip_witness :
    ((to_token 'A').isSome = true ∧ from_token ((to_token 'A').getD 0) = 'A') ∧
    to_token (from_token ((7 : ℕ) : ℤ)) = some ((7 : ℕ) : ℤ) :=
  ⟨tokenizer_roundtrip.1 'A' (by decide), tokenizer_roundtrip.2 7 (by decide)⟩

/-- Claim C7 counterexample: `':'` is outside the fixed alphabet, yet
`to_token(':')` does not fail — it silently returns 9, the same id as the
digit `'3'`. -/
theorem to_token_colon_silent :
    ':' ∉ alphabetChars ∧ to_token ':' = some 9 ∧ to_token '3' = some 9 := by
  decide

/-- Claim C7 (amended): for a character outside the fixed alphabet, `to_token`
raises its assertion (returns no id) exactly when the character's code point
is at least `ord('K')`; every out-of-alphabet character below that bound is
silently mapped to some integer. -/
theorem to_token_invalid_spec (c : Char) (hc : c ∉ alphabetChars) :
    (to_token c).isSome = true ↔ c.toNat < 'K'.toNat := by
  have hop : c ∉ operators := by
    intro h
    exact hc (by
      unfold alphabetChars
      exact List.mem_append.mpr (Or.inl (List.mem_append.mpr (Or.inl h))))
  unfold to_token
  rw [if_neg hop]
  have h9 : '9'.toNat = 57 := rfl
  have hA : 'A'.toNat = 65 := rfl
  have h0 : '0'.toNat = 48 := rfl
  have hK : 'K'.toNat = 75 := rfl
  have hvs : voca_size = 26 := rfl
  have hops : operators.length = 6 := rfl
  by_cases hgt : c.toNat > '9'.toNat
  · rw [if_pos hgt]
    rw [h9] at hgt
    dsimp only
    split
    · rename_i hlt
      simp only [hA, hops, hvs] at hlt
      simp only [Option.isSome_some, true_iff, hK]
      push_cast at hlt
      omega
    · rename_i hlt
      simp only [hA, hops, hvs] at hlt
      simp only [Option.isSome_none, Bool.false_eq_true, false_iff, hK]
      push_cast at hlt
      omega
  · rw [if_neg hgt]
    rw [h9] at hgt
    dsimp only
    split
    · simp only [Option.isSome_some, true_iff, hK]
      omega
    · rename_i hlt
      exfalso
      simp only [h0, hops, hvs] at hlt
      push_cast at hlt
      omega

/-- Witness for `to_token_invalid_spec` at `c = ':'`. -/
theorem to_token_invalid_spec_witness :
    ':' ∉ alphabetChars ∧ ((to_token ':').isSome = true ↔ ':'.toNat < 'K'.toNat) :=
  ⟨by decide, to_token_invalid_spec ':' (by decide)⟩

/-! ### Construction-time checks (model.py lines 235-244 and 533-540) -/

/-- The fields of `MultiHeadedAttention` fixed by `__init__` (model.py
lines 235-244). -/
structure MultiHeadedAttentionState where
  d_k : ℕ
  h : ℕ

/-- `MultiHeadedAttention.__init__` (model.py lines 235-244): runs
`assert d_model % h == 0` (modelled by `none` on failure) and stores
`d_k = d_model // h`. -/
def MultiHeadedAttention.init (h d_model : ℕ) : Option MultiHeadedAttentionState :=
  if d_model % h = 0 then some ⟨d_model / h, h⟩ else none

/-- The fields of `LabelSmoothing` fixed by `__init__` (model.py
lines 533-540). -/
structure LabelSmoothingState where
  padding_idx : ℕ
  confidence : ℚ
  smoothing : ℚ
  size : ℕ

/-- `LabelSmoothing.__init__` (model.py lines 533-540): the body contains no
assertion or size check of any kind, so construction always succeeds and
merely stores `padding_idx`, `confidence = 1.0 - smoothing`, `smoothing`
and `size`. -/
def LabelSmoothing.init (size padding_idx : ℕ) (smoothing : ℚ) : LabelSmoothingState :=
  ⟨padding_idx, 1 - smoothing, smoothing, size⟩

/-- Claim C8 counterexample: the claim asserts `LabelSmoothing` construction
with `size < 3` fails hard, but `__init__` performs no check: constructing it
with `size = 2` succeeds and returns the populated object. -/
theorem label_smoothing_init_size_two :
    (2 : ℕ) < 3 ∧
    LabelSmoothing.init 2 0 (2 / 5) =
      ⟨0, 1 - 2 / 5, 2 / 5, 2⟩ := ⟨by decide, rfl⟩

/-- Claim C8 (amended): `MultiHeadedAttention` construction fails hard exactly
when `d_model % h != 0`, while `LabelSmoothing.__init__` performs no validation
at all — construction succeeds for every `size` (a `size < 3` failure can only
surface later, inside `forward`). -/
theorem construction_checks (h d_model : ℕ) (hh : 0 < h)
    (size padding_idx : ℕ) (s : ℚ) :
    ((MultiHeadedAttention.init h d_model).isSome = true ↔ d_model % h = 0) ∧
    LabelSmoothing.init size padding_idx s = ⟨padding_idx, 1 - s, s, size⟩ := by
  refine ⟨?_, rfl⟩
  unfold MultiHeadedAttention.init
  split
  · rename_i hmod
    simp [hmod]
  · rename_i hmod
    simp [hmod]

/-- Witness for `construction_checks` at `h = 8`, `d_model = 512`,
`size = 2`, `padding_idx = 0`, `smoothing = 2/5`. -/
theorem construction_checks_witness :
    ((MultiHeadedAttention.init 8 512).isSome = true ↔ 512 % 8 = 0) ∧
    LabelSmoothing.init 2 0 (2 / 5) = ⟨0, 1 - 2 / 5, 2 / 5, 2⟩ :=
  construction_checks 8 512 (by decide) 2 0 (2 / 5)

/-! ### LabelSmoothing.forward (model.py lines 542-552)

`x` is the `[N, size]` tensor of predicted log-probabilities and `target` the
`[N]` tensor of target ids, both modelled as functions of the row index
(`i < B`, the batch of rows) and column index.  The construction of
`true_dist` follows the source line by line; values outside the tensor's
index range are irrelevant to the claims. -/

/-- `true_dist.fill_(self.smoothing / (self.size - 2))` followed by
`true_dist.scatter_(1, target.data.unsqueeze(1), self.confidence)`
(model.py lines 545-546): every column holds the fill value except column
`target i`, which holds `confidence`. -/
def scatterRow (fill conf : ℚ) (target : ℕ → ℕ) : ℕ → ℕ → ℚ :=
  fun i j => if j = target i then conf else fill

/-- `true_dist[:, self.padding_idx] = 0` (model.py line 547). -/
def zeroColumn (d : ℕ → ℕ → ℚ) (p : ℕ) : ℕ → ℕ → ℚ :=
  fun i j => if j = p then 0 else d i j

/-- `true_dist.index_fill_(0, mask.squeeze(), 0.0)` where
`mask = torch.nonzero(target.data == self.padding_idx)` (model.py
lines 548-550): zero every row whose target id is the pad id. -/
def zeroPadTargetRows (d : ℕ → ℕ → ℚ) (target : ℕ → ℕ) (p : ℕ) : ℕ → ℕ → ℚ :=
  fun i j => if target i = p then 0 else d i j

/-- The `true_dist` tensor built by `LabelSmoothing.forward` (model.py
lines 544-551). -/
def LabelSmoothing.trueDist (st : LabelSmoothingState) (target : ℕ → ℕ) :
    ℕ → ℕ → ℚ :=
  zeroPadTargetRows
    (zeroColumn
      (scatterRow (st.smoothing / ((st.size : ℚ) - 2)) st.confidence target)
      st.padding_idx)
    target st.padding_idx

/-- `nn.KLDivLoss(reduction="sum")` (model.py line 535) applied to
log-probabilities `x` and target distribution `t`:
`sum over i < B, j < size of t[i,j] * (log t[i,j] - x[i,j])`
(with the `0 * log 0 = 0` convention, matching `Real.log 0 = 0`). -/
noncomputable def klDivSum (B size : ℕ) (x : ℕ → ℕ → ℝ) (t : ℕ → ℕ → ℚ) : ℝ :=
  ∑ i ∈ Finset.range B, ∑ j ∈ Finset.range size,
    ((t i j : ℝ) * (Real.log ((t i j : ℝ)) - x i j))

/-- `LabelSmoothing.forward` (model.py lines 542-552): build `true_dist` and
return `self.criterion(x, true_dist)`, the sum-reduced KL divergence. -/
noncomputable def LabelSmoothing.forward (st : LabelSmoothingState) (B : ℕ)
    (x : ℕ → ℕ → ℝ) (target : ℕ → ℕ) : ℝ :=
  klDivSum B st.size x (LabelSmoothing.trueDist st target)

/-- Claim C3: for a `LabelSmoothing` criterion of vocabulary size `size` and
smoothing `s` applied to a batch of target ids: every row of the soft-target
distribution whose target equals the pad id is all-zero; every row with a
non-pad target holds exactly `1 - s` at the target class, `s / (size - 2)` at
each other non-pad class, exactly `0` at the pad class, and sums to `1`; and
the returned loss is the sum-reduced KL divergence between the predicted
log-probabilities and this soft target. -/
theorem label_smoothing_forward_spec (size padding_idx B : ℕ) (s : ℚ)
    (target : ℕ → ℕ) (x : ℕ → ℕ → ℝ)
    (hsize : 3 ≤ size) (hpad : padding_idx < size)
    (htar : ∀ i, i < B → target i < size) :
    (∀ i, i < B → target i = padding_idx →
      ∀ j, LabelSmoothing.trueDist (LabelSmoothing.init size padding_idx s)
        target i j = 0) ∧
    (∀ i, i < B → target i ≠ padding_idx →
      LabelSmoothing.trueDist (LabelSmoothing.init size padding_idx s)
          target i (target i) = 1 - s ∧
      LabelSmoothing.trueDist (LabelSmoothing.init size padding_idx s)
          target i padding_idx = 0 ∧
      (∀ j, j < size → j ≠ target i → j ≠ padding_idx →
        LabelSmoothing.trueDist (LabelSmoothing.init size padding_idx s)
          target i j = s / ((size : ℚ) - 2)) ∧
      (∑ j ∈ Finset.range size,
        LabelSmoothing.trueDist (LabelSmoothing.init size padding_idx s)
          target i j) = 1) ∧
    LabelSmoothing.forward (LabelSmoothing.init size padding_idx s) B x target =
      klDivSum B size x
        (LabelSmoothing.trueDist (LabelSmoothing.init size padding_idx s) target) := by
  refine ⟨?_, ?_, rfl⟩
  · intro i hi hpadrow j
    simp [LabelSmoothing.trueDist, zeroPadTargetRows, LabelSmoothing.init, hpadrow]
  · intro i hi hne
    have hval : ∀ j, j ≠ padding_idx → j ≠ target i →
        LabelSmoothing.trueDist (LabelSmoothing.init size padding_idx s)
          target i j = s / ((size : ℚ) - 2) := by
      intro j hjp hjt
      simp [LabelSmoothing.trueDist, zeroPadTargetRows, zeroColumn, scatterRow,
        LabelSmoothing.init, hne, hjp, hjt]
    have httv : LabelSmoothing.trueDist (LabelSmoothing.init size padding_idx s)
        target i (target i) = 1 - s := by
      simp [LabelSmoothing.trueDist, zeroPadTargetRows, zeroColumn, scatterRow,
        LabelSmoothing.init, hne]
    have hpv : LabelSmoothing.trueDist (LabelSmoothing.init size padding_idx s)
        target i padding_idx = 0 := by
      simp [LabelSmoothing.trueDist, zeroPadTargetRows, zeroColumn,
        LabelSmoothing.init, hne]
    refine ⟨httv, hpv, fun j _ hjt hjp => hval j hjp hjt, ?_⟩
    have hT : target i ∈ Finset.range size := Finset.mem_range.mpr (htar i hi)
    have hP : padding_idx ∈ (Finset.range size).erase (target i) :=
      Finset.mem_erase.mpr ⟨fun hcontra => hne hcontra.symm, Finset.mem_range.mpr hpad⟩
    rw [← Finset.add_sum_erase _ _ hT, ← Finset.add_sum_erase _ _ hP]
    have hrest : ∀ j ∈ ((Finset.range size).erase (target i)).erase padding_idx,
        LabelSmoothing.trueDist (LabelSmoothing.init size padding_idx s)
          target i j = s / ((size : ℚ) - 2) := by
      intro j hj
      have hj1 := Finset.mem_erase.mp hj
      have hj2 := Finset.mem_erase.mp hj1.2
      exact hval j hj1.1 hj2.1
    rw [Finset.sum_congr rfl hrest, Finset.sum_const]
    have hcard : (((Finset.range size).erase (target i)).erase padding_idx).card
        = size - 2 := by
      rw [Finset.card_erase_of_mem hP, Finset.card_erase_of_mem hT,
        Finset.card_range]
      omega
    rw [hcard, httv, hpv, nsmul_eq_mul]
    have hcast : ((size - 2 : ℕ) : ℚ) = (size : ℚ) - 2 := by
      push_cast [Nat.cast_sub (by omega : 2 ≤ size)]
      ring
    rw [hcast]
    have hne2 : ((size : ℚ) - 2) ≠ 0 := by
      have h3 : (3 : ℚ) ≤ (size : ℚ) := by exact_mod_cast hsize
      intro hcontra
      nlinarith
    field_simp

/-- Witness for `label_smoothing_forward_spec` at `size = 5`,
`padding_idx = 0`, `B = 2`, `smoothing = 2/5`, targets `[2, 0]`, zero
log-probabilities. -/
theorem label_smoothing_forward_spec_witness :
    ((3 : ℕ) ≤ 5 ∧ (0 : ℕ) < 5 ∧
      (∀ i, i < 2 → (fun i => if i = 0 then 2 else 0) i < 5)) ∧
    ((∀ i, i < 2 → (fun i : ℕ => if i = 0 then 2 else 0) i = 0 →
      ∀ j, LabelSmoothing.trueDist (LabelSmoothing.init 5 0 (2 / 5))
        (fun i => if i = 0 then 2 else 0) i j = 0) ∧
    (∀ i, i < 2 → (fun i : ℕ => if i = 0 then 2 else 0) i ≠ 0 →
      LabelSmoothing.trueDist (LabelSmoothing.init 5 0 (2 / 5))
          (fun i => if i = 0 then 2 else 0) i
          ((fun i : ℕ => if i = 0 then 2 else 0) i) = 1 - 2 / 5 ∧
      LabelSmoothing.trueDist (LabelSmoothing.init 5 0 (2 / 5))
          (fun i => if i = 0 then 2 else 0) i 0 = 0 ∧
      (∀ j, j < 5 → j ≠ (fun i : ℕ => if i = 0 then 2 else 0) i → j ≠ 0 →
        LabelSmoothing.trueDist (LabelSmoothing.init 5 0 (2 / 5))
          (fun i => if i = 0 then 2 else 0) i j = (2 / 5) / ((5 : ℚ) - 2)) ∧
      (∑ j ∈ Finset.range 5,
        LabelSmoothing.trueDist (LabelSmoothing.init 5 0 (2 / 5))
          (fun i => if i = 0 then 2 else 0) i j) = 1) ∧
    LabelSmoothing.forward (LabelSmoothing.init 5 0 (2 / 5)) 2
        (fun _ _ => 0) (fun i => if i = 0 then 2 else 0) =
      klDivSum 2 5 (fun _ _ => 0)
        (LabelSmoothing.trueDist (LabelSmoothing.init 5 0 (2 / 5))
          (fun i => if i = 0 then 2 else 0))) :=
  ⟨⟨by decide, by decide, by decide⟩,
    label_smoothing_forward_spec 5 0 2 (2 / 5)
      (fun i => if i = 0 then 2 else 0) (fun _ _ => 0)
      (by decide) (by decide) (by decide)⟩

/-! ### Learning-rate schedule (model.py lines 462-471) -/

/-- `rate(step, model_size, factor, warmup)` (model.py lines 462-471):
the step is clamped to 1 when it is 0, then
`factor * (model_size ** (-0.5) * min(step ** (-0.5), step * warmup ** (-1.5)))`
(real powers; `-0.5 = -(1/2)` and `-1.5 = -(3/2)` exactly). -/
noncomputable def rate (step : ℕ) (model_size factor warmup : ℝ) : ℝ :=
  let s : ℝ := if step = 0 then 1 else (step : ℝ)
  factor * (model_size ^ (-(1 / 2) : ℝ) *
    min (s ^ (-(1 / 2) : ℝ)) (s * warmup ^ (-(3 / 2) : ℝ)))

lemma rpow_neg_half_eq (x : ℝ) (hx : 0 < x) :
    x ^ (-(1 / 2) : ℝ) = (Real.sqrt x)⁻¹ := by
  rw [Real.rpow_neg hx.le, Real.sqrt_eq_rpow]

lemma rpow_neg_three_half_eq (x : ℝ) (hx : 0 < x) :
    x ^ (-(3 / 2) : ℝ) = (x * Real.sqrt x)⁻¹ := by
  rw [Real.rpow_neg hx.le]
  congr 1
  have h32 : (3 / 2 : ℝ) = 1 + 1 / 2 := by norm_num
  rw [h32, Real.rpow_add hx, Real.rpow_one, Real.sqrt_eq_rpow]

lemma mul_sqrt_le_mul_sqrt {a b : ℝ} (ha : 0 ≤ a) (hab : a ≤ b) :
    a * Real.sqrt a ≤ b * Real.sqrt b :=
  mul_le_mul hab (Real.sqrt_le_sqrt hab) (Real.sqrt_nonneg a) (ha.trans hab)

lemma min_eq_linear {s w : ℝ} (hs : 0 < s) (hw : 0 < w) (hsw : s ≤ w) :
    min (s ^ (-(1 / 2) : ℝ)) (s * w ^ (-(3 / 2) : ℝ)) = s * w ^ (-(3 / 2) : ℝ) := by
  apply min_eq_right
  rw [rpow_neg_half_eq s hs, rpow_neg_three_half_eq w hw]
  have hws : 0 < w * Real.sqrt w := mul_pos hw (Real.sqrt_pos.mpr hw)
  have hss : 0 < Real.sqrt s := Real.sqrt_pos.mpr hs
  rw [← div_eq_mul_inv, ← one_div, div_le_div_iff₀ hws hss]
  have h := mul_sqrt_le_mul_sqrt hs.le hsw
  linarith

lemma min_eq_invsqrt {s w : ℝ} (hw : 0 < w) (hws : w ≤ s) :
    min (s ^ (-(1 / 2) : ℝ)) (s * w ^ (-(3 / 2) : ℝ)) = s ^ (-(1 / 2) : ℝ) := by
  have hs : 0 < s := lt_of_lt_of_le hw hws
  apply min_eq_left
  rw [rpow_neg_half_eq s hs, rpow_neg_three_half_eq w hw]
  have hwsp : 0 < w * Real.sqrt w := mul_pos hw (Real.sqrt_pos.mpr hw)
  have hss : 0 < Real.sqrt s := Real.sqrt_pos.mpr hs
  rw [← div_eq_mul_inv, ← one_div, div_le_div_iff₀ hss hwsp]
  have h := mul_sqrt_le_mul_sqrt hw.le hws
  linarith

lemma rate_eq_linear (step : ℕ) (m f w : ℝ) (hw : 0 < w)
    (h1 : 1 ≤ step) (hsw : (step : ℝ) ≤ w) :
    rate step m f w = f * (m ^ (-(1 / 2) : ℝ) * ((step : ℝ) * w ^ (-(3 / 2) : ℝ))) := by
  unfold rate
  have h0 : step ≠ 0 := by omega
  have hs : (0 : ℝ) < (step : ℝ) := by exact_mod_cast Nat.pos_of_ne_zero h0
  rw [if_neg h0]
  dsimp only
  rw [min_eq_linear hs hw hsw]

lemma rate_eq_decay (step : ℕ) (m f w : ℝ) (hw : 0 < w)
    (hws : w ≤ (step : ℝ)) :
    rate step m f w = f * (m ^ (-(1 / 2) : ℝ) * ((step : ℝ) ^ (-(1 / 2) : ℝ))) := by
  unfold rate
  have h0 : step ≠ 0 := by
    intro h
    rw [h] at hws
    simp at hws
    linarith
  rw [if_neg h0]
  dsimp only
  rw [min_eq_invsqrt hw hws]

/-- Claim C6: `rate(0, m, f, w) == rate(1, m, f, w)` (the step is clamped to
a minimum of 1), and for positive `m`, `f` and `warmup ≥ 1` the rate is
strictly increasing in the step below the warmup and strictly decreasing
(equal to `f * m^(-0.5) * step^(-0.5)`) above the warmup. -/
theorem rate_schedule_spec (m f w : ℝ) (hm : 0 < m) (hf : 0 < f) (hw : 1 ≤ w) :
    rate 0 m f w = rate 1 m f w ∧
    (∀ s1 s2 : ℕ, 1 ≤ s1 → s1 < s2 → (s2 : ℝ) ≤ w →
      rate s1 m f w < rate s2 m f w) ∧
    (∀ s1 s2 : ℕ, w ≤ (s1 : ℝ) → s1 < s2 →
      rate s2 m f w < rate s1 m f w ∧
      rate s2 m f w = f * (m ^ (-(1 / 2) : ℝ) * ((s2 : ℝ) ^ (-(1 / 2) : ℝ)))) := by
  have hw0 : (0 : ℝ) < w := lt_of_lt_of_le one_pos hw
  have hmC : (0 : ℝ) < m ^ (-(1 / 2) : ℝ) := Real.rpow_pos_of_pos hm _
  refine ⟨?_, ?_, ?_⟩
  · unfold rate
    norm_num
  · intro s1 s2 h1 h12 h2w
    have hs1w : (s1 : ℝ) ≤ w := by
      have : (s1 : ℝ) ≤ (s2 : ℝ) := by exact_mod_cast h12.le
      linarith
    rw [rate_eq_linear s1 m f w hw0 h1 hs1w,
      rate_eq_linear s2 m f w hw0 (by omega) h2w]
    have hK : (0 : ℝ) < w ^ (-(3 / 2) : ℝ) := Real.rpow_pos_of_pos hw0 _
    have hcast : (s1 : ℝ) < (s2 : ℝ) := by exact_mod_cast h12
    exact mul_lt_mul_of_pos_left
      (mul_lt_mul_of_pos_left (mul_lt_mul_of_pos_right hcast hK) hmC) hf
  · intro s1 s2 hws1 h12
    have hws2 : w ≤ (s2 : ℝ) := by
      have : (s1 : ℝ) ≤ (s2 : ℝ) := by exact_mod_cast h12.le
      linarith
    have hs1 : (0 : ℝ) < (s1 : ℝ) := by linarith
    have hs2 : (0 : ℝ) < (s2 : ℝ) := by linarith
    refine ⟨?_, rate_eq_decay s2 m f w hw0 hws2⟩
    rw [rate_eq_decay s1 m f w hw0 hws1, rate_eq_decay s2 m f w hw0 hws2]
    have hcast : (s1 : ℝ) < (s2 : ℝ) := by exact_mod_cast h12
    have hinner : (s2 : ℝ) ^ (-(1 / 2) : ℝ) < (s1 : ℝ) ^ (-(1 / 2) : ℝ) := by
      rw [rpow_neg_half_eq _ hs1, rpow_neg_half_eq _ hs2]
      exact inv_strictAnti₀ (Real.sqrt_pos.mpr hs1)
        (Real.sqrt_lt_sqrt hs1.le hcast)
    exact mul_lt_mul_of_pos_left (mul_lt_mul_of_pos_left hinner hmC) hf

/-- Witness for `rate_schedule_spec` at `m = 512`, `f = 1`, `w = 400`,
with warmup steps `100 < 200` and decay steps `400 < 800`. -/
theorem rate_schedule_spec_witness :
    ((0 : ℝ) < 512 ∧ (0 : ℝ) < 1 ∧ (1 : ℝ) ≤ 400) ∧
    rate 0 512 1 400 = rate 1 512 1 400 ∧
    rate 100 512 1 400 < rate 200 512 1 400 ∧
    rate 800 512 1 400 < rate 400 512 1 400 :=
  ⟨⟨by norm_num, by norm_num, by norm_num⟩,
    (rate_schedule_spec 512 1 400 (by norm_num) (by norm_num) (by norm_num)).1,
    (rate_schedule_spec 512 1 400 (by norm_num) (by norm_num) (by norm_num)).2.1
      100 200 (by norm_num) (by norm_num) (by norm_num),
    ((rate_schedule_spec 512 1 400 (by norm_num) (by norm_num) (by norm_num)).2.2
      400 800 (by norm_num) (by norm_num)).1⟩

/-! ### Greedy decoding (model.py lines 644-661)

The model is abstract: `encode`, `decode` and `generator` are arbitrary
functions (their tensor arithmetic is out of scope), but the decoding loop
itself — mask construction, last-position argmax, append — is embedded
faithfully.  The generated sequence is a `List ℤ` of token ids; `generator`
returns one row of scores per position of the growing output. -/

structure TModel (Src SrcMask Mem Out : Type) where
  encode : Src → SrcMask → Mem
  decode : Mem → SrcMask → List ℤ → (ℕ → ℕ → Bool) → Out
  generator : Out → List (List ℚ)

/-- `torch.max(prob[:, -1], dim=1)` (model.py line 656): index of the first
maximal entry of a score row. -/
def argmaxIdx (l : List ℚ) : ℕ :=
  (List.range l.length).foldl
    (fun best j => if l.getD j 0 > l.getD best 0 then j else best) 0

/-- `ys_mask = (ys != pad); ys_mask = ys_mask & subsequent_mask(ys.size(-1))`
(model.py lines 648-651): entry `(i, j)` is true when position `j` is not the
pad token and `j ≤ i`. -/
def greedyYsMask (ys : List ℤ) (pad : ℤ) : ℕ → ℕ → Bool :=
  fun i j => (decide (ys.getD j pad ≠ pad)) && maskEntry ys.length i j

/-- One iteration of the `for i in range(max_len - 1)` loop of `greedy_decode`
(model.py lines 647-660): rebuild the mask over the current output, run one
decode call on the cached memory, take the argmax at the last position and
append it. -/
def decodeStep {Src SrcMask Mem Out : Type} (m : TModel Src SrcMask Mem Out)
    (memory : Mem) (srcMask : SrcMask) (pad : ℤ) (ys : List ℤ) : List ℤ :=
  let ysMask := greedyYsMask ys pad
  let out := m.decode memory srcMask ys ysMask
  let prob := m.generator out
  let nextWord := argmaxIdx (prob.getLastD [])
  ys ++ [(nextWord : ℤ)]

/-- `greedy_decode` (model.py lines 644-661): compute the encoder memory once,
start from the single start symbol, and run `max_len - 1` extension steps. -/
def greedy_decode {Src SrcMask Mem Out : Type} (m : TModel Src SrcMask Mem Out)
    (src : Src) (srcMask : SrcMask) (maxLen : ℕ) (startSymbol pad : ℤ) : List ℤ :=
  let memory := m.encode src srcMask
  (decodeStep m memory srcMask pad)^[maxLen - 1] [startSymbol]

lemma decodeStep_length {Src SrcMask Mem Out : Type}
    (m : TModel Src SrcMask Mem Out) (memory : Mem) (srcMask : SrcMask)
    (pad : ℤ) (ys : List ℤ) :
    (decodeStep m memory srcMask pad ys).length = ys.length + 1 := by
  simp [decodeStep]

lemma decodeStep_iterate_length {Src SrcMask Mem Out : Type}
    (m : TModel Src SrcMask Mem Out) (memory : Mem) (srcMask : SrcMask)
    (pad : ℤ) (n : ℕ) (ys : List ℤ) :
    ((decodeStep m memory srcMask pad)^[n] ys).length = ys.length + n := by
  induction n with
  | zero => simp
  | succ k ih =>
      rw [Function.iterate_succ_apply', decodeStep_length, ih]
      omega

lemma decodeStep_iterate_headD {Src SrcMask Mem Out : Type}
    (m : TModel Src SrcMask Mem Out) (memory : Mem) (srcMask : SrcMask)
    (pad : ℤ) (n : ℕ) (a : ℤ) (t : List ℤ) (d : ℤ) :
    ((decodeStep m memory srcMask pad)^[n] (a :: t)).headD d = a := by
  induction n generalizing t with
  | zero => simp
  | succ k ih =>
      rw [Function.iterate_succ_apply]
      have hstep : decodeStep m memory srcMask pad (a :: t) =
          a :: (t ++ [(argmaxIdx ((m.generator (m.decode memory srcMask (a :: t)
            (greedyYsMask (a :: t) pad))).getLastD []) : ℤ)]) := by
        simp [decodeStep]
      rw [hstep, ih]

/-- Claim C5: for every model, source, source mask and `max_len ≥ 1`,
`greedy_decode` starts from the length-1 output holding the start symbol,
computes the encoder memory once and iterates exactly `max_len - 1` extension
steps on it (each rebuilding the mask, decoding once, appending the
last-position argmax), and returns exactly `max_len` tokens — for arbitrary
`decode`/`generator` behaviour, so it never stops early on an end token. -/
theorem greedy_decode_spec {Src SrcMask Mem Out : Type}
    (m : TModel Src SrcMask Mem Out) (src : Src) (srcMask : SrcMask)
    (maxLen : ℕ) (startSymbol pad : ℤ) (hmax : 1 ≤ maxLen) :
    (greedy_decode m src srcMask maxLen startSymbol pad).length = maxLen ∧
    (greedy_decode m src srcMask maxLen startSymbol pad).headD 0 = startSymbol ∧
    greedy_decode m src srcMask maxLen startSymbol pad =
      (decodeStep m (m.encode src srcMask) srcMask pad)^[maxLen - 1]
        [startSymbol] := by
  refine ⟨?_, ?_, rfl⟩
  · unfold greedy_decode
    rw [decodeStep_iterate_length]
    simp
    omega
  · unfold greedy_decode
    exact decodeStep_iterate_headD m _ srcMask pad (maxLen - 1) startSymbol [] 0

/-- Witness for `greedy_decode_spec` with a trivial unit model, `max_len = 3`,
start symbol 1, pad 0. -/
theorem greedy_decode_spec_witness :
    (greedy_decode ⟨fun _ _ => (), fun _ _ _ _ => (), fun _ => []⟩
      () () 3 1 0 : List ℤ).length = 3 ∧
    (greedy_decode (⟨fun _ _ => (), fun _ _ _ _ => (), fun _ => []⟩ :
      TModel Unit Unit Unit Unit) () () 3 1 0).headD 0 = 1 ∧
    greedy_decode (⟨fun _ _ => (), fun _ _ _ _ => (), fun _ => []⟩ :
        TModel Unit Unit Unit Unit) () () 3 1 0 =
      (decodeStep (⟨fun _ _ => (), fun _ _ _ _ => (), fun _ => []⟩ :
        TModel Unit Unit Unit Unit) () () 0)^[3 - 1] [1] :=
  greedy_decode_spec ⟨fun _ _ => (), fun _ _ _ _ => (), fun _ => []⟩
    () () 3 1 0 (by decide)

/-! ### Training loop (model.py lines 398-459)

`run_epoch` is embedded as a pure fold over the batch list.  A batch is
represented by the two quantities the loop reads from it: `src_rows`
(`batch.src.shape[0]`) and `ntokens` (the count of non-pad target tokens,
`(batch.tgt_y != pad).sum()`).  The side-effecting calls
(`loss_node.backward()`, `optimizer.step()`, `optimizer.zero_grad()`,
`scheduler.step()`) are recorded in order in an event list.  The model's
forward pass and the criterion are abstract: `model.forward(batch, ...)`
and the criterion value both depend only on the batch, so
`loss_compute(out, batch.tgt_y, batch.ntokens)` is modelled as a function
of the batch. -/

structure BatchData where
  src_rows : ℕ
  ntokens : ℕ
deriving DecidableEq

/-- `TrainState` (model.py lines 398-404). -/
structure TrainState where
  step : ℕ := 0
  accum_step : ℕ := 0
  samples : ℕ := 0
  tokens : ℕ := 0
deriving DecidableEq

/-- The side-effecting calls issued by `run_epoch`, in program order. -/
inductive TrainEvent
  | backward
  | optStep
  | zeroGrad
  | schedStep
deriving DecidableEq

/-- `SimpleLossCompute.__call__` (model.py lines 626-641): given the
abstract criterion value for a batch, `sloss = criterion(...) / norm` with
`norm = batch.ntokens`, returning `(sloss.data * norm, sloss)`. -/
def SimpleLossCompute (criterion : BatchData → ℚ) : BatchData → ℚ × ℚ :=
  fun b =>
    let sloss := criterion b / (b.ntokens : ℚ)
    (sloss * (b.ntokens : ℚ), sloss)

/-- The loop state of `run_epoch` (model.py lines 419-423 plus the tracked
`train_state` and the recorded event list). -/
structure EpochAcc where
  total_loss : ℚ
  total_tokens : ℕ
  tokens : ℕ
  n_accum : ℕ
  train_state : TrainState
  events : List TrainEvent
deriving DecidableEq

/-- The body of `for i, batch in enumerate(data_iter)` (model.py
lines 424-458): compute the loss; in a training mode backward-propagate,
bump the counters, step and zero the optimizer when `i % accum_iter == 0`,
and step the scheduler once; finally accumulate the loss and token totals.
(The `print` every 40 batches has no modelled effect.) -/
def processBatch (lossCompute : BatchData → ℚ × ℚ) (mode : String)
    (accumIter : ℕ) (i : ℕ) (b : BatchData) (acc : EpochAcc) : EpochAcc :=
  let loss := (lossCompute b).1
  let acc1 :=
    if mode = "train" ∨ mode = "train+log" then
      let ts := acc.train_state
      let ts1 : TrainState :=
        { step := ts.step + 1
          accum_step := ts.accum_step
          samples := ts.samples + b.src_rows
          tokens := ts.tokens + b.ntokens }
      if i % accumIter = 0 then
        { acc with
          train_state := { ts1 with accum_step := ts1.accum_step + 1 }
          n_accum := acc.n_accum + 1
          events := acc.events ++ [TrainEvent.backward, TrainEvent.optStep,
            TrainEvent.zeroGrad, TrainEvent.schedStep] }
      else
        { acc with
          train_state := ts1
          events := acc.events ++ [TrainEvent.backward, TrainEvent.schedStep] }
    else acc
  { acc1 with
    total_loss := acc1.total_loss + loss
    total_tokens := acc1.total_tokens + b.ntokens
    tokens := acc1.tokens + b.ntokens }

/-- The indexed fold of `run_epoch` over the batch iterator. -/
def run_epoch_loop (lossCompute : BatchData → ℚ × ℚ) (mode : String)
    (accumIter : ℕ) : ℕ → List BatchData → EpochAcc → EpochAcc
  | _, [], acc => acc
  | i, b :: rest, acc =>
      run_epoch_loop lossCompute mode accumIter (i + 1) rest
        (processBatch lossCompute mode accumIter i b acc)

/-- `run_epoch` (model.py lines 408-459), returning the full final loop
state. -/
def run_epoch (batches : List BatchData) (lossCompute : BatchData → ℚ × ℚ)
    (mode : String) (accumIter : ℕ) (train_state : TrainState) : EpochAcc :=
  run_epoch_loop lossCompute mode accumIter 0 batches
    { total_loss := 0, total_tokens := 0, tokens := 0, n_accum := 0,
      train_state := train_state, events := [] }

/-- The value `run_epoch` actually returns (model.py line 459):
`total_loss / total_tokens, train_state`. -/
def run_epoch_result (batches : List BatchData)
    (lossCompute : BatchData → ℚ × ℚ) (mode : String) (accumIter : ℕ)
    (train_state : TrainState) : ℚ × TrainState :=
  let acc := run_epoch batches lossCompute mode accumIter train_state
  (acc.total_loss / (acc.total_tokens : ℚ), acc.train_state)

/-- The calls `run_epoch` makes for the batch at index `i` in a training
mode: `backward`, then `optimizer.step(); optimizer.zero_grad()` exactly
when `i % accum_iter == 0`, then `scheduler.step()`. -/
def perBatchEvents (accumIter i : ℕ) : List TrainEvent :=
  [TrainEvent.backward] ++
    (if i % accumIter = 0 then [TrainEvent.optStep, TrainEvent.zeroGrad] else []) ++
    [TrainEvent.schedStep]

/-- The concatenated call trace over a whole training epoch of `n`
batches. -/
def epochEvents (accumIter n : ℕ) : List TrainEvent :=
  (List.range n).flatMap (perBatchEvents accumIter)

lemma processBatch_events_train (lossCompute : BatchData → ℚ × ℚ) (mode : String)
    (hmode : mode = "train" ∨ mode = "train+log") (accumIter i : ℕ)
    (b : BatchData) (acc : EpochAcc) :
    (processBatch lossCompute mode accumIter i b acc).events =
      acc.events ++ perBatchEvents accumIter i := by
  unfold processBatch perBatchEvents
  rw [if_pos hmode]
  by_cases hi : i % accumIter = 0
  · rw [if_pos hi, if_pos hi]
    simp
  · rw [if_neg hi, if_neg hi]
    simp

lemma run_epoch_loop_events_train (lossCompute : BatchData → ℚ × ℚ)
    (mode : String) (hmode : mode = "train" ∨ mode = "train+log")
    (accumIter : ℕ) (batches : List BatchData) :
    ∀ (i : ℕ) (acc : EpochAcc),
      (run_epoch_loop lossCompute mode accumIter i batches acc).events =
        acc.events ++
          (List.range batches.length).flatMap
            (fun k => perBatchEvents accumIter (i + k)) := by
  induction batches with
  | nil =>
      intro i acc
      simp [run_epoch_loop]
  | cons b rest ih =>
      intro i acc
      rw [run_epoch_loop, ih, processBatch_events_train lossCompute mode hmode]
      rw [List.length_cons, List.range_succ_eq_map, List.flatMap_cons,
        List.flatMap_map, List.append_assoc]
      simp only [Nat.add_zero]
      congr 2
      have hfun : (fun k : ℕ => perBatchEvents accumIter (i + 1 + k)) =
          (fun a : ℕ => perBatchEvents accumIter (i + a.succ)) := by
        funext k
        congr 1
        omega
      rw [hfun]

lemma epochEvents_count_backward (a n : ℕ) :
    (epochEvents a n).count TrainEvent.backward = n := by
  induction n with
  | zero => simp [epochEvents]
  | succ k ih =>
      unfold epochEvents at ih ⊢
      rw [List.range_succ, List.flatMap_append, List.count_append, ih]
      by_cases hk : k % a = 0 <;> simp [perBatchEvents, List.count_cons, hk]

lemma epochEvents_count_sched (a n : ℕ) :
    (epochEvents a n).count TrainEvent.schedStep = n := by
  induction n with
  | zero => simp [epochEvents]
  | succ k ih =>
      unfold epochEvents at ih ⊢
      rw [List.range_succ, List.flatMap_append, List.count_append, ih]
      by_cases hk : k % a = 0 <;> simp [perBatchEvents, List.count_cons, hk]

lemma epochEvents_count_opt (a n : ℕ) :
    (epochEvents a n).count TrainEvent.optStep =
      (List.range n).countP (fun i => i % a == 0) := by
  induction n with
  | zero => simp [epochEvents]
  | succ k ih =>
      unfold epochEvents at ih ⊢
      rw [List.range_succ, List.flatMap_append, List.count_append, ih,
        List.countP_append]
      by_cases hk : k % a = 0 <;>
        simp [perBatchEvents, List.count_cons, List.countP_cons, hk]

lemma epochEvents_count_zeroGrad (a n : ℕ) :
    (epochEvents a n).count TrainEvent.zeroGrad =
      (List.range n).countP (fun i => i % a == 0) := by
  induction n with
  | zero => simp [epochEvents]
  | succ k ih =>
      unfold epochEvents at ih ⊢
      rw [List.range_succ, List.flatMap_append, List.count_append, ih,
        List.countP_append]
      by_cases hk : k % a = 0 <;>
        simp [perBatchEvents, List.count_cons, List.countP_cons, hk]

lemma processBatch_eval (lossCompute : BatchData → ℚ × ℚ) (accumIter i : ℕ)
    (b : BatchData) (acc : EpochAcc) :
    processBatch lossCompute "eval" accumIter i b acc =
      { acc with
        total_loss := acc.total_loss + (lossCompute b).1
        total_tokens := acc.total_tokens + b.ntokens
        tokens := acc.tokens + b.ntokens } := by
  unfold processBatch
  rw [if_neg (by simp : ¬(("eval" : String) = "train" ∨ ("eval" : String) = "train+log"))]

lemma run_epoch_loop_eval (lossCompute : BatchData → ℚ × ℚ) (accumIter : ℕ)
    (batches : List BatchData) :
    ∀ (i : ℕ) (acc : EpochAcc),
      run_epoch_loop lossCompute "eval" accumIter i batches acc =
        { acc with
          total_loss := acc.total_loss +
            (batches.map (fun b => (lossCompute b).1)).sum
          total_tokens := acc.total_tokens + (batches.map BatchData.ntokens).sum
          tokens := acc.tokens + (batches.map BatchData.ntokens).sum } := by
  induction batches with
  | nil =>
      intro i acc
      simp [run_epoch_loop]
  | cons b rest ih =>
      intro i acc
      rw [run_epoch_loop, ih, processBatch_eval]
      simp [add_assoc]

/-- Claim C9: in a training mode (`"train"` or `"train+log"`), `run_epoch`
issues per batch `i` the calls `backward`, then — exactly when
`i % accum_iter == 0`, i.e. once per `accum_iter` batches —
`optimizer.step()` immediately followed by `optimizer.zero_grad()`, then
`scheduler.step()`; so backward and scheduler.step happen once per batch and
step/zero_grad happen `countP (· % accum_iter == 0)` times; and the
per-batch loss node is the criterion value normalized by the batch's
non-pad target token count. -/
theorem run_epoch_train_spec (criterion : BatchData → ℚ)
    (batches : List BatchData) (mode : String) (accumIter : ℕ)
    (ts : TrainState) (hmode : mode = "train" ∨ mode = "train+log") :
    (run_epoch batches (SimpleLossCompute criterion) mode accumIter ts).events =
      epochEvents accumIter batches.length ∧
    (run_epoch batches (SimpleLossCompute criterion) mode accumIter
        ts).events.count TrainEvent.backward = batches.length ∧
    (run_epoch batches (SimpleLossCompute criterion) mode accumIter
        ts).events.count TrainEvent.schedStep = batches.length ∧
    (run_epoch batches (SimpleLossCompute criterion) mode accumIter
        ts).events.count TrainEvent.optStep =
      (List.range batches.length).countP (fun i => i % accumIter == 0) ∧
    (run_epoch batches (SimpleLossCompute criterion) mode accumIter
        ts).events.count TrainEvent.zeroGrad =
      (List.range batches.length).countP (fun i => i % accumIter == 0) ∧
    (∀ b : BatchData,
      (SimpleLossCompute criterion b).2 = criterion b / (b.ntokens : ℚ)) := by
  have hev : (run_epoch batches (SimpleLossCompute criterion) mode accumIter
      ts).events = epochEvents accumIter batches.length := by
    unfold run_epoch epochEvents
    rw [run_epoch_loop_events_train _ mode hmode]
    simp
  refine ⟨hev, ?_, ?_, ?_, ?_, fun b => rfl⟩
  · rw [hev, epochEvents_count_backward]
  · rw [hev, epochEvents_count_sched]
  · rw [hev, epochEvents_count_opt]
  · rw [hev, epochEvents_count_zeroGrad]

/-- Claim C10: with `mode == "eval"`, `run_epoch` leaves the `TrainState`
counters untouched and issues no backward/optimizer/scheduler call at all;
it only accumulates the running loss and token totals and returns
`total_loss / total_tokens` together with the unchanged train state. -/
theorem run_epoch_eval_spec (lossCompute : BatchData → ℚ × ℚ)
    (batches : List BatchData) (accumIter : ℕ) (ts : TrainState) :
    (run_epoch batches lossCompute "eval" accumIter ts).train_state = ts ∧
    (run_epoch batches lossCompute "eval" accumIter ts).events = [] ∧
    (run_epoch batches lossCompute "eval" accumIter ts).total_loss =
      (batches.map (fun b => (lossCompute b).1)).sum ∧
    (run_epoch batches lossCompute "eval" accumIter ts).total_tokens =
      (batches.map BatchData.ntokens).sum ∧
    run_epoch_result batches lossCompute "eval" accumIter ts =
      ((batches.map (fun b => (lossCompute b).1)).sum /
        (((batches.map BatchData.ntokens).sum : ℕ) : ℚ), ts) := by
  have hloop := run_epoch_loop_eval lossCompute accumIter batches 0
    { total_loss := 0, total_tokens := 0, tokens := 0, n_accum := 0,
      train_state := ts, events := [] }
  unfold run_epoch run_epoch_result
  rw [hloop]
  simp [run_epoch, hloop]

/-- Witness for `run_epoch_train_spec`: one batch of 1 row and 2 non-pad
tokens, constant criterion 1, `mode = "train"`, `accum_iter = 1`, fresh
counters. -/
theorem run_epoch_train_spec_witness :
    (("train" : String) = "train" ∨ ("train" : String) = "train+log") ∧
    ((run_epoch [⟨1, 2⟩] (SimpleLossCompute (fun _ => 1)) "train" 1
        ⟨0, 0, 0, 0⟩).events =
      epochEvents 1 ([(⟨1, 2⟩ : BatchData)].length) ∧
    (run_epoch [⟨1, 2⟩] (SimpleLossCompute (fun _ => 1)) "train" 1
        ⟨0, 0, 0, 0⟩).events.count TrainEvent.backward =
      [(⟨1, 2⟩ : BatchData)].length ∧
    (run_epoch [⟨1, 2⟩] (SimpleLossCompute (fun _ => 1)) "train" 1
        ⟨0, 0, 0, 0⟩).events.count TrainEvent.schedStep =
      [(⟨1, 2⟩ : BatchData)].length ∧
    (run_epoch [⟨1, 2⟩] (SimpleLossCompute (fun _ => 1)) "train" 1
        ⟨0, 0, 0, 0⟩).events.count TrainEvent.optStep =
      (List.range [(⟨1, 2⟩ : BatchData)].length).countP (fun i => i % 1 == 0) ∧
    (run_epoch [⟨1, 2⟩] (SimpleLossCompute (fun _ => 1)) "train" 1
        ⟨0, 0, 0, 0⟩).events.count TrainEvent.zeroGrad =
      (List.range [(⟨1, 2⟩ : BatchData)].length).countP (fun i => i % 1 == 0) ∧
    (∀ b : BatchData,
      (SimpleLossCompute (fun _ => 1) b).2 = 1 / (b.ntokens : ℚ))) :=
  ⟨Or.inl rfl, run_epoch_train_spec (fun _ => 1) [⟨1, 2⟩] "train" 1
    ⟨0, 0, 0, 0⟩ (Or.inl rfl)⟩
